import Mathlib

/-!
Shallow embedding of `src/bonsai/src/visualizer/mermaid.rs`: the Mermaid
flowchart renderer (configuration extraction, the character escaper, and
`Mermaid::graph_fmt`), together with proofs of the specified properties.

Node payloads are modelled as the string produced by their `Display`
formatting (`node_fmt`), since the renderer only ever observes that text.
Edge payloads are carried but never displayed, exactly as in the source
(`_edge_fmt` is unused there).
-/

namespace Mermaid

/-- `Config` from mermaid.rs: the flag enumeration, including the hidden
placeholder variant `_Incomplete(())`. -/
inductive Config where
  | NodeIndexLabel
  | EdgeIndexLabel
  | EdgeNoLabel
  | NodeNoLabel
  | Incomplete
deriving DecidableEq, Repr

/-- `Configs` from mermaid.rs (generated by `make_config_struct!`): the
resolved boolean record, all fields defaulting to `false`. -/
structure Configs where
  NodeIndexLabel : Bool := false
  EdgeIndexLabel : Bool := false
  EdgeNoLabel : Bool := false
  NodeNoLabel : Bool := false
deriving DecidableEq, Repr

/-- `Configs::extract`: fold the flag list into the record, setting the
matching field to `true`; the `_Incomplete` placeholder is ignored. -/
def Configs.extract (configs : List Config) : Configs :=
  configs.foldl
    (fun conf c =>
      match c with
      | Config.NodeIndexLabel => { conf with NodeIndexLabel := true }
      | Config.EdgeIndexLabel => { conf with EdgeIndexLabel := true }
      | Config.EdgeNoLabel => { conf with EdgeNoLabel := true }
      | Config.NodeNoLabel => { conf with NodeNoLabel := true }
      | Config.Incomplete => conf)
    {}

/-- Concatenation of a list of strings (`strJoin` avoids the `foldl`-based
`String.join` so that proofs can recurse structurally). -/
def strJoin : List String → String
  | [] => ""
  | s :: rest => s ++ strJoin rest

/-- `Escaper::write_char`: the text emitted to the inner sink for one input
character. `"` and `\` are preceded by an escaping backslash; a newline
becomes the two-character sequence `\l`; everything else passes through. -/
def escapeChar (c : Char) : String :=
  if c = '"' ∨ c = '\\' then String.mk ['\\', c]
  else if c = '\n' then "\\l"
  else String.mk [c]

/-- `Escaper::write_str`: escape every character of the input in order. -/
def escapeStr (s : String) : String :=
  strJoin (s.data.map escapeChar)

/-- A left-to-right scanner deciding that a character list contains no
unescaped `"` and no unescaped `\`: a `\` must be followed by a further
character (the pair is consumed together), and a bare `"` never occurs. -/
def noUnescaped : List Char → Bool
  | [] => true
  | ['\\'] => false
  | '\\' :: _ :: rest => noUnescaped rest
  | '"' :: _ => false
  | _ :: rest => noUnescaped rest

/-- A node reference as the renderer observes it: its dense index
(`g.to_index(node.id())`) and its payload's `Display` output
(`node.weight()` through `node_fmt`). -/
structure Node where
  index : Nat
  weight : String
deriving DecidableEq, Repr

/-- An edge reference as the renderer observes it: source and target dense
indices and the (never displayed) payload text. -/
structure Edge where
  source : Nat
  target : Nat
  weight : String
deriving DecidableEq, Repr

/-- The `GraphView` capabilities `graph_fmt` consumes: node references in
iteration order, edge references in iteration order, directedness. -/
structure Graph where
  nodes : List Node
  edges : List Edge
  directed : Bool
deriving DecidableEq, Repr

/-- `static EDGE: [&str; 2] = ["---", "-->"];` -/
def EDGE : List String := ["---", "-->"]

/-- `static INDENT: &str = "    ";` -/
def INDENT : String := "    "

/-- The successive sink writes `graph_fmt` performs for one node: the
first indexed `write!`, then — unless `NodeNoLabel` — the
opening quote, the label (the raw index under `NodeIndexLabel`, otherwise
the escaped payload), the closing quote, and finally the
`writeln!(f, "{}]", node_attributes)`. -/
def nodeWrites (conf : Configs) (na : Node → String) (n : Node) : List String :=
  [INDENT ++ toString n.index ++ "["] ++
    (if conf.NodeNoLabel then [] else
      ["\""] ++
        [if conf.NodeIndexLabel then toString n.index else escapeStr n.weight] ++
        ["\""]) ++
    [na n ++ "]" ++ "\n"]

/-- The successive sink writes `graph_fmt` performs for one edge: the
`write!` of `INDENT`, source index, `EDGE[is_directed as usize]` and target
index, then the `writeln!(f, "{}", edge_attributes)`. -/
def edgeWrites (directed : Bool) (ea : Edge → String) (e : Edge) : List String :=
  [INDENT ++ toString e.source ++ " " ++ (EDGE.getD (cond directed 1 0) "") ++ " " ++
      toString e.target] ++
    [ea e ++ "\n"]

/-- The full sequence of sink writes of one `graph_fmt` pass: the header
`writeln!`, then the node writes in iteration order, then the edge writes. -/
def renderWrites (g : Graph) (conf : Configs) (na : Node → String) (ea : Edge → String) :
    List String :=
  ["flowchart TD" ++ "\n"] ++
    g.nodes.flatMap (nodeWrites conf na) ++
    g.edges.flatMap (edgeWrites g.directed ea)

/-- The text produced by a complete successful render pass: what
`Display::fmt` leaves in an infallible `String` sink. -/
def render (g : Graph) (conf : Configs) (na : Node → String) (ea : Edge → String) : String :=
  strJoin (renderWrites g conf na ea)

/-- `graph_fmt`, node loop body, over a fallible sink: each `?` operator of
the source is a monadic bind, so the first failed write aborts the pass. -/
def writeNodeM {σ ε : Type} (write : σ → String → Except ε σ) (conf : Configs)
    (na : Node → String) (s : σ) (n : Node) : Except ε σ := do
  let s ← write s (INDENT ++ toString n.index ++ "[")
  let s ←
    if conf.NodeNoLabel then pure s
    else do
      let s ← write s "\""
      let s ←
        if conf.NodeIndexLabel then write s (toString n.index)
        else write s (escapeStr n.weight)
      write s "\""
  write s (na n ++ "]" ++ "\n")

/-- `graph_fmt`, edge loop body, over a fallible sink. -/
def writeEdgeM {σ ε : Type} (write : σ → String → Except ε σ) (directed : Bool)
    (ea : Edge → String) (s : σ) (e : Edge) : Except ε σ := do
  let s ← write s (INDENT ++ toString e.source ++ " " ++
    (EDGE.getD (cond directed 1 0) "") ++ " " ++ toString e.target)
  write s (ea e ++ "\n")

/-- `Mermaid::graph_fmt` over a fallible sink `write` with initial sink
state `s`: header, node loop, edge loop, each write checked by `?`. -/
def renderM {σ ε : Type} (write : σ → String → Except ε σ) (s : σ) (g : Graph)
    (conf : Configs) (na : Node → String) (ea : Edge → String) : Except ε σ := do
  let s ← write s ("flowchart TD" ++ "\n")
  let s ← g.nodes.foldlM (writeNodeM write conf na) s
  g.edges.foldlM (writeEdgeM write g.directed ea) s

/-- Reference semantics of a write sequence against a fallible sink: each
write is attempted in order; the first failure is returned at once and no
later write is attempted. -/
def runWrites {σ ε : Type} (write : σ → String → Except ε σ) : σ → List String → Except ε σ
  | s, [] => Except.ok s
  | s, w :: ws =>
    match write s w with
    | Except.error e => Except.error e
    | Except.ok s2 => runWrites write s2 ws

theorem strJoin_append (l1 l2 : List String) :
    strJoin (l1 ++ l2) = strJoin l1 ++ strJoin l2 := by
  induction l1 with
  | nil => simp [strJoin, String.empty_append]
  | cons a t ih => simp [strJoin, ih, String.append_assoc]

theorem strJoin_flatMap {α : Type} (f : α → List String) (l : List α) :
    strJoin (l.flatMap f) = strJoin (l.map fun x => strJoin (f x)) := by
  induction l with
  | nil => rfl
  | cons a t ih => simp [List.flatMap_cons, strJoin_append, strJoin, ih]

theorem strJoin_data (l : List String) :
    (strJoin l).data = l.flatMap String.data := by
  induction l with
  | nil => rfl
  | cons a t ih => simp [strJoin, String.data_append, ih]

theorem strJoin_nodeWrites (conf : Configs) (na : Node → String) (n : Node) :
    strJoin (nodeWrites conf na n) =
      INDENT ++ toString n.index ++ "[" ++
        (if conf.NodeNoLabel then "" else
          "\"" ++ (if conf.NodeIndexLabel then toString n.index else escapeStr n.weight) ++
            "\"") ++
        na n ++ "]" ++ "\n" := by
  cases h1 : conf.NodeNoLabel <;> cases h2 : conf.NodeIndexLabel <;>
    simp [nodeWrites, strJoin, h1, h2, String.append_assoc, String.append_empty,
      String.empty_append]

theorem escapeChar_eq (c : Char) :
    escapeChar c =
      if c = '"' then "\\\"" else if c = '\\' then "\\\\"
      else if c = '\n' then "\\l" else String.mk [c] := by
  by_cases h1 : c = '"' <;> by_cases h2 : c = '\\' <;> by_cases h3 : c = '\n' <;>
    simp [escapeChar, h1, h2, h3]

theorem noUnescaped_append_escapeChar (c : Char) (rest : List Char) :
    noUnescaped ((escapeChar c).data ++ rest) = noUnescaped rest := by
  by_cases h1 : c = '"' <;> by_cases h2 : c = '\\' <;> by_cases h3 : c = '\n' <;>
    simp [escapeChar, h1, h2, h3, noUnescaped]

theorem noUnescaped_escapeStr_data (l : List Char) :
    noUnescaped ((l.map escapeChar).flatMap String.data) = true := by
  induction l with
  | nil => rfl
  | cons c t ih => simp [List.flatMap_cons, noUnescaped_append_escapeChar, ih]

theorem escapeChar_safe_id (c : Char) (h1 : c ≠ '"') (h2 : c ≠ '\\') (h3 : c ≠ '\n') :
    escapeChar c = String.mk [c] := by
  simp [escapeChar, h1, h2, h3]

theorem extract_foldl (conf : Configs) (l : List Config) :
    l.foldl
      (fun conf c =>
        match c with
        | Config.NodeIndexLabel => { conf with NodeIndexLabel := true }
        | Config.EdgeIndexLabel => { conf with EdgeIndexLabel := true }
        | Config.EdgeNoLabel => { conf with EdgeNoLabel := true }
        | Config.NodeNoLabel => { conf with NodeNoLabel := true }
        | Config.Incomplete => conf)
      conf =
      ⟨conf.NodeIndexLabel || l.contains Config.NodeIndexLabel,
        conf.EdgeIndexLabel || l.contains Config.EdgeIndexLabel,
        conf.EdgeNoLabel || l.contains Config.EdgeNoLabel,
        conf.NodeNoLabel || l.contains Config.NodeNoLabel⟩ := by
  induction l generalizing conf with
  | nil => simp
  | cons c t ih => cases c <;> simp [List.foldl_cons, ih, List.contains_cons, Bool.or_assoc]

theorem extract_contains (l : List Config) :
    Configs.extract l =
      ⟨l.contains Config.NodeIndexLabel, l.contains Config.EdgeIndexLabel,
        l.contains Config.EdgeNoLabel, l.contains Config.NodeNoLabel⟩ := by
  simpa [Configs.extract] using extract_foldl {} l

theorem nodeWrites_config_congr (conf1 conf2 : Configs) (na : Node → String)
    (h1 : conf1.NodeIndexLabel = conf2.NodeIndexLabel)
    (h2 : conf1.NodeNoLabel = conf2.NodeNoLabel) :
    nodeWrites conf1 na = nodeWrites conf2 na := by
  funext n
  simp [nodeWrites, h1, h2]

theorem render_config_congr (g : Graph) (conf1 conf2 : Configs) (na : Node → String)
    (ea : Edge → String) (h1 : conf1.NodeIndexLabel = conf2.NodeIndexLabel)
    (h2 : conf1.NodeNoLabel = conf2.NodeNoLabel) :
    render g conf1 na ea = render g conf2 na ea := by
  simp [render, renderWrites, nodeWrites_config_congr conf1 conf2 na h1 h2]


theorem runWrites_cons_explicit {σ ε : Type} (write : σ → String → Except ε σ) (s : σ)
    (w : String) (ws : List String) :
    runWrites write s (w :: ws) =
      (write s w).bind fun s2 => runWrites write s2 ws := by
  cases h : write s w <;> simp [runWrites, h, Except.bind]

theorem runWrites_append2 {σ ε : Type} (write : σ → String → Except ε σ) (s : σ)
    (l1 l2 : List String) :
    runWrites write s (l1 ++ l2) =
      (runWrites write s l1).bind fun s2 => runWrites write s2 l2 := by
  induction l1 generalizing s with
  | nil => simp [runWrites, Except.bind]
  | cons a t ih =>
    cases h : write s a <;>
      simp [runWrites, h, Except.bind, ih]

theorem writeNodeM_eq_runWrites {σ ε : Type} (write : σ → String → Except ε σ)
    (conf : Configs) (na : Node → String) (s : σ) (n : Node) :
    writeNodeM write conf na s n = runWrites write s (nodeWrites conf na n) := by
  cases h1 : conf.NodeNoLabel <;> cases h2 : conf.NodeIndexLabel <;>
    simp [writeNodeM, nodeWrites, h1, h2, runWrites_cons_explicit, runWrites,
      Bind.bind, Except.bind, pure, Except.pure] <;>
    (repeat' split) <;> simp_all


theorem except_bind_ok {σ ε : Type} (x : Except ε σ) :
    (x.bind fun v => Except.ok v) = x := by
  cases x <;> rfl

theorem runWrites_nil {σ ε : Type} (write : σ → String → Except ε σ) (s : σ) :
    runWrites write s [] = Except.ok s := rfl

theorem writeEdgeM_eq_runWrites {σ ε : Type} (write : σ → String → Except ε σ)
    (directed : Bool) (ea : Edge → String) (s : σ) (e : Edge) :
    writeEdgeM write directed ea s e = runWrites write s (edgeWrites directed ea e) := by
  simp only [writeEdgeM, edgeWrites, List.singleton_append, runWrites_cons_explicit,
    Bind.bind, runWrites_nil, except_bind_ok]

theorem foldlM_writeNodeM {σ ε : Type} (write : σ → String → Except ε σ) (conf : Configs)
    (na : Node → String) (nodes : List Node) (s : σ) :
    nodes.foldlM (writeNodeM write conf na) s =
      runWrites write s (nodes.flatMap (nodeWrites conf na)) := by
  induction nodes generalizing s with
  | nil => rfl
  | cons n t ih =>
    rw [List.foldlM_cons, List.flatMap_cons, runWrites_append2, writeNodeM_eq_runWrites]
    cases h : runWrites write s (nodeWrites conf na n) <;> simp [h, Except.bind, Bind.bind, ih]

theorem foldlM_writeEdgeM {σ ε : Type} (write : σ → String → Except ε σ) (directed : Bool)
    (ea : Edge → String) (edges : List Edge) (s : σ) :
    edges.foldlM (writeEdgeM write directed ea) s =
      runWrites write s (edges.flatMap (edgeWrites directed ea)) := by
  induction edges generalizing s with
  | nil => rfl
  | cons e t ih =>
    rw [List.foldlM_cons, List.flatMap_cons, runWrites_append2, writeEdgeM_eq_runWrites]
    cases h : runWrites write s (edgeWrites directed ea e) <;> simp [h, Except.bind, Bind.bind, ih]

theorem renderM_eq_runWrites {σ ε : Type} (write : σ → String → Except ε σ) (s : σ)
    (g : Graph) (conf : Configs) (na : Node → String) (ea : Edge → String) :
    renderM write s g conf na ea = runWrites write s (renderWrites g conf na ea) := by
  simp only [renderM, renderWrites, runWrites_append2, List.singleton_append,
    runWrites_cons_explicit, Bind.bind]
  cases h : write s ("flowchart TD" ++ "\n") <;>
    simp [h, Except.bind, foldlM_writeNodeM, foldlM_writeEdgeM, runWrites, runWrites_append2,
      Bind.bind]

theorem runWrites_ok_sink (s : String) (l : List String) :
    runWrites (fun s2 t => (Except.ok (s2 ++ t) : Except Unit String)) s l =
      Except.ok (s ++ strJoin l) := by
  induction l generalizing s with
  | nil => simp [runWrites, strJoin, String.append_empty]
  | cons a t ih => simp [runWrites, strJoin, ih, String.append_assoc]

theorem strJoin_escape_safe (l : List Char)
    (h : ∀ c ∈ l, c ≠ '"' ∧ c ≠ '\\' ∧ c ≠ '\n') :
    strJoin (l.map escapeChar) = String.mk l := by
  induction l with
  | nil => rfl
  | cons c t ih =>
    have hc := h c (List.mem_cons_self c t)
    have ht : ∀ x ∈ t, x ≠ '"' ∧ x ≠ '\\' ∧ x ≠ '\n' :=
      fun x hx => h x (List.mem_cons_of_mem c hx)
    simp only [List.map_cons, strJoin, escapeChar_safe_id c hc.1 hc.2.1 hc.2.2, ih ht]
    rfl

/-- C1 (counterexample): with a single node labelled `A` and a node injector
returning the literal `:::highlight`, the rendered node line is
`    0["A":::highlight]` — the injected text appears before the closing `]`,
not after it as claimed, so the node line does not end with the injector's
text immediately before the line terminator. -/
theorem node_injector_after_bracket_refuted :
    render ⟨[⟨0, "A"⟩], [], true⟩ (Configs.extract []) (fun _ => ":::highlight")
        (fun _ => "") = "flowchart TD\n    0[\"A\":::highlight]\n" ∧
    ("flowchart TD\n    0[\"A\":::highlight]\n" : String) ≠
      "flowchart TD\n    0[\"A\"]:::highlight\n" ∧
    ¬ (":::highlight\n".data <:+
        (render ⟨[⟨0, "A"⟩], [], true⟩ (Configs.extract []) (fun _ => ":::highlight")
          (fun _ => "")).data) ∧
    (":::highlight]\n".data <:+
        (render ⟨[⟨0, "A"⟩], [], true⟩ (Configs.extract []) (fun _ => ":::highlight")
          (fun _ => "")).data) :=
  ⟨rfl, by decide, by decide, by decide⟩

/-- C1 (amended): each emitted node line has the shape
`<index>["<label>"<injected>]` — the node injector's returned text is
emitted unescaped after the label's closing quote and before the closing
`]`, which is immediately followed by the line terminator (under
`NodeNoLabel` the quoted label part is empty, under `NodeIndexLabel` it is
the raw index). -/
theorem node_line_injected_before_bracket (g : Graph) (conf : Configs)
    (na : Node → String) (ea : Edge → String) :
    render g conf na ea =
      "flowchart TD" ++ "\n" ++
        strJoin (g.nodes.map fun n =>
          INDENT ++ toString n.index ++ "[" ++
            (if conf.NodeNoLabel then "" else
              "\"" ++ (if conf.NodeIndexLabel then toString n.index else escapeStr n.weight)
                ++ "\"") ++
            na n ++ "]" ++ "\n") ++
        strJoin (g.edges.map fun e => strJoin (edgeWrites g.directed ea e)) := by
  simp only [render, renderWrites, strJoin_append, strJoin_flatMap, strJoin_nodeWrites]
  simp [strJoin, String.append_empty, String.append_assoc]

/-- C2: the two-node graph with payloads `A`, `B` and one edge A→B renders,
under the empty configuration and no-op injectors, to exactly the expected
four lines, with `-->` on the edge line when directed and `---` when
undirected, all else unchanged. -/
theorem two_node_graph_exact_output :
    render ⟨[⟨0, "A"⟩, ⟨1, "B"⟩], [⟨0, 1, "edge_label"⟩], true⟩ (Configs.extract [])
        (fun _ => "") (fun _ => "") =
      "flowchart TD\n    0[\"A\"]\n    1[\"B\"]\n    0 --> 1\n" ∧
    render ⟨[⟨0, "A"⟩, ⟨1, "B"⟩], [⟨0, 1, "edge_label"⟩], false⟩ (Configs.extract [])
        (fun _ => "") (fun _ => "") =
      "flowchart TD\n    0[\"A\"]\n    1[\"B\"]\n    0 --- 1\n" :=
  ⟨rfl, rfl⟩

/-- C3: for every input string the escaper emits `\"` for each `"`, `\\` for
each `\`, the two-character sequence `\l` for each newline (and nothing
else for it), and every other character unchanged, in input order; and the
escaped output contains no unescaped `"` or `\`. -/
theorem escaper_replacements_and_no_unescaped (s : String) :
    escapeStr s =
      strJoin (s.data.map fun c =>
        if c = '"' then "\\\"" else if c = '\\' then "\\\\"
        else if c = '\n' then "\\l" else String.mk [c]) ∧
    noUnescaped (escapeStr s).data = true := by
  constructor
  · have h : escapeChar = fun c =>
        if c = '"' then "\\\"" else if c = '\\' then "\\\\"
        else if c = '\n' then "\\l" else String.mk [c] :=
      funext escapeChar_eq
    rw [escapeStr, h]
  · rw [escapeStr, strJoin_data]
    exact noUnescaped_escapeStr_data s.data

/-- C4: the `EdgeIndexLabel` and `EdgeNoLabel` flags are parsed into the
resolved configuration but have no effect on the rendered output: two
renders differing only in those flags — whether as resolved record fields
or as extracted flag-list entries — are byte-identical. -/
theorem edge_label_flags_no_effect (g : Graph) (na : Node → String) (ea : Edge → String)
    (conf : Configs) (b1 b2 : Bool) (l : List Config) :
    render g { conf with EdgeIndexLabel := b1, EdgeNoLabel := b2 } na ea =
      render g conf na ea ∧
    render g (Configs.extract (Config.EdgeIndexLabel :: Config.EdgeNoLabel :: l)) na ea =
      render g (Configs.extract l) na ea := by
  constructor
  · exact render_config_congr g _ conf na ea rfl rfl
  · apply render_config_congr
    · rw [extract_contains, extract_contains]
      simp [List.contains_cons]
    · rw [extract_contains, extract_contains]
      simp [List.contains_cons]

/-- C5: on every edge line the token emitted between the source index and
the target index is `---` when the graph reports undirected and `-->` when
it reports directed. -/
theorem edge_arrow_token (directed : Bool) (ea : Edge → String) (e : Edge) :
    strJoin (edgeWrites directed ea e) =
      INDENT ++ toString e.source ++ " " ++ (if directed then "-->" else "---") ++ " " ++
        toString e.target ++ ea e ++ "\n" := by
  cases directed <;>
    simp [edgeWrites, strJoin, EDGE, String.append_assoc, String.append_empty]

/-- C6: whenever `NodeNoLabel` is set, a node line carries no quoted label
at all — it is `<index>[<injected>]` — regardless of `NodeIndexLabel` and
of the node's payload. -/
theorem node_no_label_empty_brackets (conf : Configs) (h : conf.NodeNoLabel = true)
    (na : Node → String) (n : Node) :
    strJoin (nodeWrites conf na n) =
      INDENT ++ toString n.index ++ "[" ++ na n ++ "]" ++ "\n" := by
  rw [strJoin_nodeWrites]
  simp [h, String.append_empty]

/-- C6 witness: with `NodeNoLabel` (and `NodeIndexLabel`) extracted from the
flag list, the node line for index 0 under a no-op injector is `    0[]`. -/
theorem node_no_label_empty_brackets_witness :
    (Configs.extract [Config.NodeNoLabel, Config.NodeIndexLabel]).NodeNoLabel = true ∧
    strJoin (nodeWrites (Configs.extract [Config.NodeNoLabel, Config.NodeIndexLabel])
        (fun _ => "") ⟨0, "payload"⟩) = "    0[]\n" := by
  refine ⟨rfl, ?_⟩
  rw [node_no_label_empty_brackets
    (Configs.extract [Config.NodeNoLabel, Config.NodeIndexLabel]) rfl (fun _ => "")
    ⟨0, "payload"⟩]
  rfl

/-- C7: escaping is the identity on every string containing none of `"`,
`\`, or newline. -/
theorem escape_identity_on_safe (s : String)
    (h : ∀ c ∈ s.data, c ≠ '"' ∧ c ≠ '\\' ∧ c ≠ '\n') :
    escapeStr s = s := by
  rw [escapeStr, strJoin_escape_safe s.data h]

/-- C7 witness: a concrete safe string passes through the escaper
unchanged. -/
theorem escape_identity_on_safe_witness :
    (∀ c ∈ ("hello world" : String).data, c ≠ '"' ∧ c ≠ '\\' ∧ c ≠ '\n') ∧
    escapeStr "hello world" = "hello world" :=
  ⟨by decide, escape_identity_on_safe "hello world" (by decide)⟩

/-- C8: a render pass is exactly the in-order processing of its write
sequence against the sink — the first write failure is returned immediately
and no later write is attempted — and against an infallible sink it always
succeeds (for every graph, configuration and injectors), producing the full
rendered text; no input other than a sink failure produces an error. -/
theorem render_failure_semantics {σ ε : Type} (write : σ → String → Except ε σ) (s : σ)
    (g : Graph) (conf : Configs) (na : Node → String) (ea : Edge → String) :
    renderM write s g conf na ea = runWrites write s (renderWrites g conf na ea) ∧
    renderM (fun s2 t => (Except.ok (s2 ++ t) : Except Unit String)) "" g conf na ea =
      Except.ok (render g conf na ea) := by
  refine ⟨renderM_eq_runWrites write s g conf na ea, ?_⟩
  rw [renderM_eq_runWrites, runWrites_ok_sink]
  simp [render, String.empty_append]

/-- C9: configuration extraction resolves each field to exactly the flag's
membership in the list — hence repeating a flag is idempotent, placeholder
values leave the record unchanged, and every flag list yields a record
(none is rejected). -/
theorem extract_membership_idempotent (l : List Config) :
    Configs.extract l =
      ⟨l.contains Config.NodeIndexLabel, l.contains Config.EdgeIndexLabel,
        l.contains Config.EdgeNoLabel, l.contains Config.NodeNoLabel⟩ ∧
    (∀ c : Config, Configs.extract (l ++ [c] ++ [c]) = Configs.extract (l ++ [c])) ∧
    Configs.extract (Config.Incomplete :: l) = Configs.extract l := by
  refine ⟨extract_contains l, fun c => ?_, ?_⟩
  · rw [extract_contains, extract_contains]
    cases c <;> simp [List.mem_append]
  · rw [extract_contains, extract_contains]
    simp

/-- C10: an empty graph renders, under any configuration, injectors and
directedness, as exactly the header line and its terminator. -/
theorem empty_graph_header_only (directed : Bool) (conf : Configs) (na : Node → String)
    (ea : Edge → String) :
    render ⟨[], [], directed⟩ conf na ea = "flowchart TD\n" := rfl

end Mermaid
